import Mathlib

/-!
Verification model of `src/price_monitor.py` (bol-price-monitor).

The Python program is a Telegram price-monitoring bot.  This file gives a
shallow embedding of its core logic:

* the price-text normalization and parsing inside `PriceBot.get_price`
  (lines 131-143), with Python `float` modelled as `ℚ` (prices here are
  short decimal strings, where `float` parsing agrees with exact rational
  reading for the identities we state);
* the selector-cascade extraction of `PriceBot.get_price` over an abstract
  HTML document, with its try/except boundary;
* the product store (`chat_id -> url -> record`), modelled as association
  lists preserving Python dict insertion order;
* the command handlers `add_product`, `remove_product`, `button_callback`
  and a single sweep of `check_prices`.

Network, HTML fetching, timing, and the Telegram transport are modelled as
oracles/inputs; everything else follows the Python source line by line.
-/

namespace PriceMonitor

/-! ## Price text normalization (get_price, lines 131-140) -/

/-- Characters kept by line 133:
`''.join(c for c in price_text if c.isdigit() or c in '.,')`.
Python `str.isdigit` is modelled as ASCII `Char.isDigit`. -/
def keepChar (c : Char) : Bool := c.isDigit || c = '.' || c = ','

/-- Line 134: `price_text.replace(',', '.')` applied per character. -/
def commaToDot (c : Char) : Char := if c = ',' then '.' else c

/-- The character list after the strip (line 133) and the comma
replacement (line 134). -/
def cleanChars (s : String) : List Char :=
  (s.toList.filter keepChar).map commaToDot

/-- Python `str.split('.')` on a list of characters: splits at every `'.'`,
keeping empty segments, and always returns a nonempty list of parts. -/
def splitDots : List Char → List (List Char)
  | [] => [[]]
  | c :: t =>
    if c = '.' then [] :: splitDots t
    else
      match splitDots t with
      | [] => [[c]]
      | h :: r => (c :: h) :: r

/-- Lines 136-138: if the text still holds more than one `'.'`, join all
parts but the last and re-attach the last part after a single `'.'`:
`price_text = ''.join(parts[:-1]) + '.' + parts[-1]`. -/
def collapseDots (cs : List Char) : List Char :=
  if cs.count '.' > 1 then
    let parts := splitDots cs
    parts.dropLast.flatten ++ '.' :: parts.getLastD []
  else cs

/-- The full normalization of the raw price text (lines 133-138). -/
def normalizePrice (s : String) : String :=
  ⟨collapseDots (cleanChars s)⟩

/-! ## Parsing the normalized text (get_price, line 140)

`float(price_text)` on the strings this program produces: it succeeds
exactly on nonempty digit/period strings holding at most one period and at
least one digit, and reads them as exact decimals; on anything else it
raises `ValueError` (modelled by `none`, handled by the `except` at
line 148). -/

/-- Digit-string value, most significant first (`"99"` is `99`). -/
def natOfDigits (cs : List Char) : ℕ :=
  cs.foldl (fun n c => 10 * n + (c.toNat - 48)) 0

/-- Model of Python `float` on the digit/period alphabet that can reach
line 140 (the normalized text), returning an exact rational. -/
def parsePrice (s : String) : Option ℚ :=
  if (∀ c ∈ s.toList, c.isDigit ∨ c = '.') ∧ s.toList.count '.' ≤ 1
      ∧ (∃ c ∈ s.toList, c.isDigit) then
    match splitDots s.toList with
    | [a] => some (natOfDigits a : ℚ)
    | [a, b] => some ((natOfDigits a : ℚ) + (natOfDigits b : ℚ) / (10 : ℚ) ^ b.length)
    | _ => none
  else none

/-- Lines 142-143: `if price > 1000: price = price / 100`. -/
def highPriceCorrection (p : ℚ) : ℚ :=
  if 1000 < p then p / 100 else p

/-- The complete value pipeline applied to the raw text of the chosen
price element (lines 131-143): normalize, parse, correct. -/
def extractPrice (raw : String) : Option ℚ :=
  (parsePrice (normalizePrice raw)).map highPriceCorrection

/-! ## The extraction boundary (get_price, lines 53-150)

The HTTP fetch is an input: either an exception during `session.get`
(line 81), a non-2xx status making `raise_for_status` raise (line 82), or
a parsed document.  A document is a list of elements in document order;
`soup.find` / `soup.find_all` become first-match / filter over that list.
Python `element.text` truthiness and digit tests operate on the element's
text. -/

structure Element where
  tag : String
  attrs : List (String × String)
  classes : List String
  text : String
deriving DecidableEq

/-- A parsed HTML document: its elements in document order. -/
abbrev Doc := List Element

/-- First-position lookup in an association list (Python `dict` lookup). -/
def alookup {α : Type} (k : String) : List (String × α) → Option α
  | [] => none
  | (k', v) :: t => if k' = k then some v else alookup k t

/-- The attribute part of a name selector (lines 87-93): either a
`data-test` attribute value, a class token, or no constraint (`None`). -/
inductive AttrCrit where
  | dataTest (v : String)
  | cls (v : String)
  | anyAttr
deriving DecidableEq

/-- Whether an element matches one `(tag, attrs)` candidate of
`name_selectors`, as `soup.find(tag, attrs)` / `soup.find(tag)` would. -/
def selMatch (tag : String) (crit : AttrCrit) (e : Element) : Bool :=
  e.tag = tag &&
    match crit with
    | .dataTest v => alookup ("data-test") e.attrs = some v
    | .cls v => e.classes.contains v
    | .anyAttr => true

/-- The ordered name-selector cascade of lines 87-93. -/
def name_selectors : List (String × AttrCrit) :=
  [("h1", AttrCrit.dataTest ("title")),
   ("span", AttrCrit.dataTest ("title")),
   ("h1", AttrCrit.cls ("product-title")),
   ("div", AttrCrit.dataTest ("title")),
   ("h1", AttrCrit.anyAttr)]

/-- Lines 95-102: take the first selector that finds an element, scanning
the document in order for each candidate. -/
def findNameElement (doc : Doc) : List (String × AttrCrit) → Option Element
  | [] => none
  | (tag, crit) :: rest =>
    match doc.find? (selMatch tag crit) with
    | some e => some e
    | none => findNameElement doc rest

/-- The ordered price class-name cascade of lines 110-116. -/
def price_selectors : List String :=
  [("promo-price"), ("price-block__price"), ("price"),
   ("product-price"), ("current-price")]

/-- Lines 118-126: for each class candidate in order, scan all elements of
that class and accept the first whose text holds at least one digit. -/
def findPriceElement (doc : Doc) : List String → Option Element
  | [] => none
  | sel :: rest =>
    match (doc.filter (fun e => e.classes.contains sel)).find?
        (fun e => e.text.toList.any Char.isDigit) with
    | some e => some e
    | none => findPriceElement doc rest

/-- Outcome of the HTTP fetch of the product page (line 81-82). -/
inductive FetchResult where
  | netError
  | badStatus (code : ℕ)
  | ok (doc : Doc)

/-- The distinct ways the body of `get_price` can raise (all caught at
line 148). -/
inductive ExtractError where
  | network
  | httpStatus (code : ℕ)
  | nameNotFound
  | priceNotFound
  | badPriceText
deriving DecidableEq

/-- The body of `get_price` before its `except` clause: each failure mode
raises a distinct exception. -/
def extractCore (fetch : FetchResult) : Except ExtractError (ℚ × String) :=
  match fetch with
  | .netError => .error .network
  | .badStatus c => .error (.httpStatus c)
  | .ok doc =>
    match findNameElement doc name_selectors with
    | none => .error .nameNotFound
    | some nameEl =>
      match findPriceElement doc price_selectors with
      | none => .error .priceNotFound
      | some priceEl =>
        match extractPrice priceEl.text.trim with
        | none => .error .badPriceText
        | some p => .ok (p, nameEl.text.trim)

/-- `PriceBot.get_price` (lines 53-150): the `except` at line 148 maps
every exception to `(None, None)`, modelled as `none`. -/
def get_price (fetch : FetchResult) : Option (ℚ × String) :=
  match extractCore fetch with
  | .ok v => some v
  | .error _ => none

/-! ## The product store

`self.products` is a JSON-backed Python dict `chat_id -> url -> record`
(`{'name', 'last_price', 'last_check'}`).  Python dicts preserve insertion
order; we model each level as an association list.  `save_products` only
mirrors the in-memory dict to disk, so the in-memory value is the state. -/

structure ProductData where
  name : String
  last_price : ℚ
  last_check : String
deriving DecidableEq

/-- One subscriber's `url -> record` dict. -/
abbrev ChatProducts := List (String × ProductData)

/-- The whole `self.products` dict. -/
abbrev Store := List (String × ChatProducts)

/-- Python `d[k] = v`: update the value in place if the key exists,
otherwise append the new key at the end. -/
def aset {α : Type} (k : String) (v : α) : List (String × α) → List (String × α)
  | [] => [(k, v)]
  | (k', v') :: t => if k' = k then (k, v) :: t else (k', v') :: aset k v t

/-- Python `del d[k]`: drop the (first, hence only) binding of `k`. -/
def aerase {α : Type} (k : String) : List (String × α) → List (String × α)
  | [] => []
  | (k', v') :: t => if k' = k then t else (k', v') :: aerase k t

/-! ## Command handler: /add (add_product, lines 169-217) -/

def usageMsg : String :=
  "Please provide a Bol.com product URL\nExample: /add https://www.bol.com/product-url"

def invalidUrlMsg : String := "Please provide a valid Bol.com URL"

def alreadyMonitoredMsg : String := "This product is already being monitored!"

def fetchingMsg : String := "🔍 Fetching product information..."

def couldNotFetchMsg : String :=
  "Sorry, I couldn't fetch the product information. Please check if:\n1. The URL is correct\n2. The product is still available\n3. The website is accessible\n\nTry again in a few minutes."

/-- The confirmation of lines 208-213; the `format_price` rendering of the
price is elided (the claims are about state, not digit formatting). -/
def addedMsg (name : String) (_price : ℚ) : String :=
  "✅ Added to monitoring: " ++ name

/-- Result of one `/add` invocation: the replies sent to the user, the
resulting `self.products`, and whether `get_price` was invoked (i.e.
whether any network call was attempted). -/
structure AddResult where
  replies : List String
  products : Store
  fetched : Bool
deriving DecidableEq

/-- Python `s.startswith(pre)`: `pre` is a prefix of `s`.  (Stated on the
character lists; `String.startsWith` agrees but does not reduce in the
kernel.) -/
def strStartsWith (s pre : String) : Bool :=
  pre.toList.isPrefixOf s.toList

/-- Lines 181-182: `if chat_id not in self.products:
self.products[chat_id] = {}`. -/
def addChatIfAbsent (products : Store) (chat : String) : Store :=
  if (alookup chat products).isSome then products else aset chat ([]) products

/-- `self.products[chat_id]` right after `addChatIfAbsent`. -/
def chatDict (products : Store) (chat : String) : ChatProducts :=
  (alookup chat (addChatIfAbsent products chat)).getD []

/-- `PriceBot.add_product` (lines 169-217).  `fetch` stands for
`self.get_price`, `now` for `datetime.now().isoformat()`.  The line 191
guard `if price is None or not name` treats an empty name as falsy. -/
def add_product (products : Store) (chat : String) (args : List String)
    (fetch : String → Option (ℚ × String)) (now : String) : AddResult :=
  match args with
  | [] => ⟨[usageMsg], products, false⟩
  | url :: _ =>
    if strStartsWith url ("https://www.bol.com") then
      if (alookup url (chatDict products chat)).isSome then
        ⟨[alreadyMonitoredMsg], addChatIfAbsent products chat, false⟩
      else
        match fetch url with
        | none =>
          ⟨[fetchingMsg, couldNotFetchMsg], addChatIfAbsent products chat, true⟩
        | some (price, name) =>
          if name = "" then
            ⟨[fetchingMsg, couldNotFetchMsg], addChatIfAbsent products chat, true⟩
          else
            ⟨[fetchingMsg, addedMsg name price],
             aset chat (aset url ⟨name, price, now⟩ (chatDict products chat))
               (addChatIfAbsent products chat), true⟩
    else ⟨[invalidUrlMsg], products, false⟩

/-! ## Command handler: /remove and its button callback
(remove_product lines 233-252, button_callback lines 254-270) -/

def noProductsMsg : String := "You have no products to remove."

def selectMsg : String := "Select a product to remove:"

def removedMsg (name : String) : String :=
  "✅ Removed " ++ name ++ " from monitoring."

def notFoundMsg : String := "❌ Error: Product not found."

def invalidRemovalMsg : String := "❌ Error: Invalid removal request."

/-- The tokens issued by lines 243-249: `rm_0`, `rm_1`, … in enumeration
order of the subscriber's products, each mapped to its URL. -/
def mkTokens : ℕ → ChatProducts → List (String × String)
  | _, [] => []
  | i, (url, _) :: rest => (("rm_") ++ toString i, url) :: mkTokens (i + 1) rest

/-- `PriceBot.remove_product` (lines 233-252): returns the reply and the
new `self._remove_urls` map.  The map is cleared (line 240) and rebuilt,
so a second invocation overwrites the previous menu entirely. -/
def remove_product (products : Store) (removeUrls : List (String × String))
    (chat : String) : List String × List (String × String) :=
  match alookup chat products with
  | none => ([noProductsMsg], removeUrls)
  | some cp =>
    if cp = [] then ([noProductsMsg], removeUrls)
    else ([selectMsg], mkTokens 0 cp)

/-- Result of one button callback: the message shown, the resulting
`self.products`, and the (unchanged) `self._remove_urls`. -/
structure CallbackResult where
  messages : List String
  products : Store
  removeUrls : List (String × String)
deriving DecidableEq

/-- `PriceBot.button_callback` (lines 254-270). -/
def button_callback (products : Store) (removeUrls : List (String × String))
    (chat : String) (data : String) : CallbackResult :=
  if strStartsWith data ("rm_") then
    match alookup data removeUrls with
    | some url =>
      match alookup chat products with
      | some cp =>
        match alookup url cp with
        | some pd =>
          ⟨[removedMsg pd.name], aset chat (aerase url cp) products, removeUrls⟩
        | none => ⟨[notFoundMsg], products, removeUrls⟩
      | none => ⟨[notFoundMsg], products, removeUrls⟩
    | none => ⟨[invalidRemovalMsg], products, removeUrls⟩
  else ⟨[], products, removeUrls⟩

/-! ## One polling-sweep step (check_prices, lines 272-310)

The notification message of lines 287-294 is modelled structurally by the
fields interpolated into the f-string.  `change_percent` at line 285
divides by the stored price: when that price is `0` Python raises
`ZeroDivisionError`, which escapes the inner loops and is only caught by
the outer handler at line 308, aborting the rest of the sweep; the model
keeps that path explicit. -/

structure Alert where
  name : String
  oldPrice : ℚ
  newPrice : ℚ
  change : ℚ
  changePercent : ℚ
  up : Bool
deriving DecidableEq

/-- The fields of the price-change message (lines 284-294):
`change = current_price - last_price`,
`change_percent = (change / last_price) * 100`, and the 📈/📉 pick
`change > 0`. -/
def mkAlert (d : ProductData) (current : ℚ) : Alert :=
  let change := current - d.last_price
  ⟨d.name, d.last_price, current, change,
   change / d.last_price * 100, decide (0 < change)⟩

/-- Outcome of lines 280-304 for one `(url, record)` pair:
`ok attempted delivered record` (the notifications attempted, those
actually delivered given the transport's behaviour, and the stored
record afterwards), or `err record` when the percentage computation
raises `ZeroDivisionError` (stored price `0`, fetched price different),
leaving the record unchanged and aborting the sweep. -/
inductive StepOutcome where
  | ok (attempted delivered : List Alert) (record : ProductData)
  | err (record : ProductData)
deriving DecidableEq

/-- One iteration of the inner loop of `check_prices` for a single stored
record (lines 277-304).  `fetchRes` is the price part of `get_price`;
`sendOk` says whether `self.updater.bot.send_message` (line 297) succeeds
— its failure is caught at line 299, and the store update at lines
302-304 runs either way. -/
def checkOne (d : ProductData) (fetchRes : Option ℚ) (sendOk : Bool)
    (now : String) : StepOutcome :=
  match fetchRes with
  | none => .ok [] [] d
  | some current =>
    if current = d.last_price then .ok [] [] d
    else if d.last_price = 0 then .err d
    else
      let a := mkAlert d current
      .ok [a] (if sendOk then [a] else [])
        ⟨d.name, current, now⟩

/-- One sweep over a subscriber's product list (the inner `for` of lines
276-304): alerts attempted, records afterwards, and whether the sweep was
aborted by an escaped exception (in which case the remaining records are
untouched). -/
def sweepChat (fetch : String → Option ℚ) (now : String) :
    ChatProducts → List Alert × ChatProducts × Bool
  | [] => ([], [], false)
  | (url, d) :: rest =>
    match checkOne d (fetch url) true now with
    | .ok att _ d' =>
      (att ++ (sweepChat fetch now rest).1,
       (url, d') :: (sweepChat fetch now rest).2.1,
       (sweepChat fetch now rest).2.2)
    | .err d0 => ([], (url, d0) :: rest, true)

/-- One sweep over the whole store (the outer `for` of line 275); an
escaped exception aborts the remaining subscribers too. -/
def sweepStore (fetch : String → Option ℚ) (now : String) : Store → Store
  | [] => []
  | (c, l) :: rest =>
    if (sweepChat fetch now l).2.2 then (c, (sweepChat fetch now l).2.1) :: rest
    else (c, (sweepChat fetch now l).2.1) :: sweepStore fetch now rest

/-- The stored record after one iteration of the inner loop: the updated
record on the normal path, the untouched record when the iteration's
exception escapes. -/
def stepRecord : StepOutcome → ProductData
  | .ok _ _ r => r
  | .err r => r

/-! ## Concrete data for the scenario theorems -/

def prodOne : ProductData := ⟨"Product One", 10, "t0"⟩

def prodTwo : ProductData := ⟨"Product Two", 20, "t0"⟩

/-- A record whose stored price is zero, as produced by a page whose price
element reads `0` (reachable through `add`). -/
def zeroRecord : ProductData := ⟨"Zero-priced item", 0, "t0"⟩

def urlOne : String := "https://www.bol.com/p/1"

def urlTwo : String := "https://www.bol.com/p/2"

/-- A subscriber monitoring two products. -/
def storeTwo : Store := [("chat1", [(urlOne, prodOne), (urlTwo, prodTwo)])]

/-- A subscriber monitoring one product. -/
def demoStore : Store := [("chat1", [(urlOne, prodOne)])]

/-- The token map issued by the first `/remove` on `storeTwo`. -/
def menuOne : List (String × String) := (remove_product storeTwo [] ("chat1")).2

/-- The store after the subscriber removes the first product through the
first menu. -/
def afterFirstRemoval : Store :=
  (button_callback storeTwo menuOne ("chat1") ("rm_0")).products

/-- The token map issued by a second `/remove`, overwriting `menuOne`. -/
def menuTwo : List (String × String) :=
  (remove_product afterFirstRemoval menuOne ("chat1")).2

/-- Pressing the stale first-menu button `rm_0` after the second `/remove`
has overwritten the token map. -/
def staleCallback : CallbackResult :=
  button_callback afterFirstRemoval menuTwo ("chat1") ("rm_0")

/-! ## Lemmas about the normalization pipeline -/

theorem splitDots_ne_nil (l : List Char) : splitDots l ≠ [] := by
  cases l with
  | nil => simp [splitDots]
  | cons c t =>
    by_cases hc : c = '.'
    · simp [splitDots, hc]
    · simp only [splitDots, if_neg hc]
      cases h : splitDots t <;> simp

theorem splitDots_no_dot (l : List Char) (h : '.' ∉ l) : splitDots l = [l] := by
  induction l with
  | nil => rfl
  | cons c t ih =>
    have hc : ¬ c = '.' := fun hc => h (hc ▸ List.mem_cons_self c t)
    have ht : '.' ∉ t := fun hm => h (List.mem_cons_of_mem c hm)
    simp only [splitDots, if_neg hc, ih ht]

theorem splitDots_append (a b : List Char) (hb : '.' ∉ b) :
    splitDots (a ++ '.' :: b) = splitDots a ++ [b] := by
  induction a with
  | nil => simp [splitDots, splitDots_no_dot b hb]
  | cons c a ih =>
    by_cases hc : c = '.'
    · subst hc
      simp [splitDots, ih]
    · cases h : splitDots a with
      | nil => exact absurd h (splitDots_ne_nil a)
      | cons h0 r0 =>
        simp [splitDots, hc, ih, h]

theorem flatten_splitDots (l : List Char) :
    (splitDots l).flatten = l.filter (fun c => c != '.') := by
  induction l with
  | nil => rfl
  | cons c t ih =>
    by_cases hc : c = '.'
    · subst hc
      simp [splitDots, ih]
    · cases h : splitDots t with
      | nil => exact absurd h (splitDots_ne_nil t)
      | cons h0 r0 =>
        have : (h0 :: r0).flatten = List.filter (fun c => c != '.') t := h ▸ ih
        simp [splitDots, hc, h, ← this]

theorem splitDots_parts_no_dot (l : List Char) :
    ∀ p ∈ splitDots l, '.' ∉ p := by
  induction l with
  | nil =>
    intro p hp
    simp only [splitDots, List.mem_singleton] at hp
    simp [hp]
  | cons c t ih =>
    intro p hp
    by_cases hc : c = '.'
    · subst hc
      simp only [splitDots, if_pos] at hp
      rcases List.mem_cons.1 hp with rfl | hp
      · simp
      · exact ih p hp
    · cases h : splitDots t with
      | nil => exact absurd h (splitDots_ne_nil t)
      | cons h0 r0 =>
        rw [show splitDots (c :: t) = (c :: h0) :: r0 by simp [splitDots, hc, h]] at hp
        rcases List.mem_cons.1 hp with rfl | hp
        · intro hmem
          rcases List.mem_cons.1 hmem with h' | h'
          · exact hc h'.symm
          · exact ih h0 (h ▸ List.mem_cons_self h0 r0) h'
        · exact ih p (h ▸ List.mem_cons_of_mem h0 hp)

theorem splitDots_parts_subset (l : List Char) :
    ∀ p ∈ splitDots l, ∀ c ∈ p, c ∈ l := by
  induction l with
  | nil =>
    intro p hp
    simp only [splitDots, List.mem_singleton] at hp
    simp [hp]
  | cons c t ih =>
    intro p hp x hx
    by_cases hc : c = '.'
    · subst hc
      simp only [splitDots, if_pos] at hp
      rcases List.mem_cons.1 hp with rfl | hp
      · exact absurd hx (List.not_mem_nil x)
      · exact List.mem_cons_of_mem _ (ih p hp x hx)
    · cases h : splitDots t with
      | nil => exact absurd h (splitDots_ne_nil t)
      | cons h0 r0 =>
        rw [show splitDots (c :: t) = (c :: h0) :: r0 by simp [splitDots, hc, h]] at hp
        rcases List.mem_cons.1 hp with rfl | hp
        · rcases List.mem_cons.1 hx with rfl | hx
          · exact List.mem_cons_self x t
          · exact List.mem_cons_of_mem _
              (ih h0 (h ▸ List.mem_cons_self h0 r0) x hx)
        · exact List.mem_cons_of_mem _
            (ih p (h ▸ List.mem_cons_of_mem h0 hp) x hx)

theorem getLastD_mem_of_ne_nil {α : Type} (l : List α) (d : α) (h : l ≠ []) :
    l.getLastD d ∈ l := by
  induction l with
  | nil => exact absurd rfl h
  | cons a t ih =>
    cases t with
    | nil => simp [List.getLastD]
    | cons b u =>
      exact List.mem_cons_of_mem a (ih (by simp))

theorem cleanChars_mem (s : String) :
    ∀ c ∈ cleanChars s, c.isDigit ∨ c = '.' := by
  intro c hc
  unfold cleanChars at hc
  obtain ⟨c0, hc0, rfl⟩ := List.mem_map.1 hc
  have hk : keepChar c0 = true := List.of_mem_filter hc0
  unfold keepChar at hk
  unfold commaToDot
  by_cases hcomma : c0 = ','
  · right
    simp [hcomma]
  · rw [if_neg hcomma]
    rcases Bool.or_eq_true_iff.1 hk with h | h
    · rcases Bool.or_eq_true_iff.1 h with h' | h'
      · exact Or.inl h'
      · exact Or.inr (by simpa using h')
    · exact absurd (by simpa using h) hcomma

theorem collapseDots_count (l : List Char) : (collapseDots l).count '.' ≤ 1 := by
  unfold collapseDots
  by_cases h : l.count '.' > 1
  · rw [if_pos h]
    have hflat : '.' ∉ ((splitDots l).dropLast).flatten := by
      intro hmem
      obtain ⟨p, hp, hin⟩ := List.mem_flatten.1 hmem
      exact splitDots_parts_no_dot l p (List.dropLast_sublist (splitDots l) |>.subset hp) hin
    have hlast : '.' ∉ (splitDots l).getLastD [] := by
      intro hmem
      exact splitDots_parts_no_dot l _
        (getLastD_mem_of_ne_nil (splitDots l) [] (splitDots_ne_nil l)) hmem
    have h1 : List.count '.' ((splitDots l).dropLast.flatten) = 0 :=
      List.count_eq_zero_of_not_mem hflat
    have h2 : List.count '.' ((splitDots l).getLastD []) = 0 :=
      List.count_eq_zero_of_not_mem hlast
    simp only [List.count_append, List.count_cons_self, h1, h2]
    omega
  · rw [if_neg h]
    omega

theorem collapseDots_mem (l : List Char) :
    ∀ c ∈ collapseDots l, c ∈ l ∨ c = '.' := by
  intro c hc
  unfold collapseDots at hc
  by_cases h : l.count '.' > 1
  · rw [if_pos h] at hc
    rcases List.mem_append.1 hc with hc' | hc'
    · obtain ⟨p, hp, hin⟩ := List.mem_flatten.1 hc'
      exact Or.inl (splitDots_parts_subset l p
        (List.dropLast_sublist (splitDots l) |>.subset hp) c hin)
    · rcases List.mem_cons.1 hc' with rfl | hc''
      · exact Or.inr rfl
      · exact Or.inl (splitDots_parts_subset l _
          (getLastD_mem_of_ne_nil (splitDots l) [] (splitDots_ne_nil l)) c hc'')
  · rw [if_neg h] at hc
    exact Or.inl hc

theorem normalizePrice_toList (s : String) :
    (normalizePrice s).toList = collapseDots (cleanChars s) := rfl

theorem normalizePrice_chars (s : String) :
    ∀ c ∈ (normalizePrice s).toList, c.isDigit ∨ c = '.' := by
  intro c hc
  rw [normalizePrice_toList] at hc
  rcases collapseDots_mem (cleanChars s) c hc with h | h
  · exact cleanChars_mem s c h
  · exact Or.inr h

theorem normalizePrice_count (s : String) :
    (normalizePrice s).toList.count '.' ≤ 1 := by
  rw [normalizePrice_toList]
  exact collapseDots_count (cleanChars s)

theorem parsePrice_nonneg (s : String) (q : ℚ) (h : parsePrice s = some q) :
    0 ≤ q := by
  unfold parsePrice at h
  split at h
  · split at h
    · cases h
      positivity
    · cases h
      positivity
    · exact absurd h (by simp)
  · exact absurd h (by simp)

theorem highPriceCorrection_nonneg (p : ℚ) (h : 0 ≤ p) :
    0 ≤ highPriceCorrection p := by
  unfold highPriceCorrection
  split
  · positivity
  · exact h

theorem extractPrice_nonneg (raw : String) (p : ℚ)
    (h : extractPrice raw = some p) : 0 ≤ p := by
  unfold extractPrice at h
  cases hp : parsePrice (normalizePrice raw) with
  | none => rw [hp] at h; cases h
  | some q =>
    rw [hp] at h
    cases h
    exact highPriceCorrection_nonneg q (parsePrice_nonneg _ q hp)

theorem get_price_nonneg (f : FetchResult) (p : ℚ) (n : String)
    (h : get_price f = some (p, n)) : 0 ≤ p := by
  cases f with
  | netError => simp [get_price, extractCore] at h
  | badStatus c => simp [get_price, extractCore] at h
  | ok doc =>
    simp only [get_price, extractCore] at h
    cases hname : findNameElement doc name_selectors with
    | none => simp only [hname] at h; cases h
    | some nameEl =>
      simp only [hname] at h
      cases hpe : findPriceElement doc price_selectors with
      | none => simp only [hpe] at h; cases h
      | some priceEl =>
        simp only [hpe] at h
        cases hex : extractPrice priceEl.text.trim with
        | none => simp only [hex] at h; cases h
        | some q =>
          simp only [hex, Option.some.injEq, Prod.mk.injEq] at h
          obtain ⟨rfl, -⟩ := h
          exact extractPrice_nonneg _ _ hex

/-! ## Lemmas about the association-list store -/

theorem alookup_mem_of_eq {α : Type} (k : String) (v : α) :
    ∀ l : List (String × α), alookup k l = some v → (k, v) ∈ l := by
  intro l
  induction l with
  | nil => intro h; cases h
  | cons p t ih =>
    intro h
    obtain ⟨k', v'⟩ := p
    by_cases hk : k' = k
    · subst hk
      simp only [alookup, eq_self_iff_true, if_true, Option.some.injEq] at h
      subst h
      exact List.mem_cons_self _ _
    · simp only [alookup, if_neg hk] at h
      exact List.mem_cons_of_mem _ (ih h)

theorem aset_mem {α : Type} (k : String) (v : α) (p : String × α) :
    ∀ l : List (String × α), p ∈ aset k v l → p = (k, v) ∨ p ∈ l := by
  intro l
  induction l with
  | nil =>
    intro h
    simp only [aset, List.mem_singleton] at h
    exact Or.inl h
  | cons q t ih =>
    intro h
    obtain ⟨k', v'⟩ := q
    by_cases hk : k' = k
    · subst hk
      simp only [aset, if_true] at h
      simp [aset] at h
      rcases h with rfl | h'
      · exact Or.inl rfl
      · exact Or.inr (List.mem_cons_of_mem _ h')
    · simp only [aset, if_neg hk] at h
      rcases List.mem_cons.1 h with rfl | h'
      · exact Or.inr (List.mem_cons_self _ _)
      · rcases ih h' with h'' | h''
        · exact Or.inl h''
        · exact Or.inr (List.mem_cons_of_mem _ h'')

theorem aerase_subset {α : Type} (k : String) (p : String × α) :
    ∀ l : List (String × α), p ∈ aerase k l → p ∈ l := by
  intro l
  induction l with
  | nil => intro h; cases h
  | cons q t ih =>
    intro h
    obtain ⟨k', v'⟩ := q
    by_cases hk : k' = k
    · subst hk
      simp [aerase] at h
      exact List.mem_cons_of_mem _ h
    · simp only [aerase, if_neg hk] at h
      rcases List.mem_cons.1 h with rfl | h'
      · exact List.mem_cons_self _ _
      · exact List.mem_cons_of_mem _ (ih h')

theorem aset_keys_mem {α : Type} (k x : String) (v : α) :
    ∀ l : List (String × α),
      x ∈ (aset k v l).map Prod.fst → x = k ∨ x ∈ l.map Prod.fst := by
  intro l hx
  obtain ⟨p, hp, rfl⟩ := List.mem_map.1 hx
  rcases aset_mem k v p l hp with rfl | hp'
  · exact Or.inl rfl
  · exact Or.inr (List.mem_map.2 ⟨p, hp', rfl⟩)

theorem aset_nodup {α : Type} (k : String) (v : α) :
    ∀ l : List (String × α),
      (l.map Prod.fst).Nodup → ((aset k v l).map Prod.fst).Nodup := by
  intro l
  induction l with
  | nil => intro _; simp [aset]
  | cons q t ih =>
    intro h
    obtain ⟨k', v'⟩ := q
    simp only [List.map_cons, List.nodup_cons] at h
    by_cases hk : k' = k
    · subst hk
      simp only [aset, eq_self_iff_true, if_true, List.map_cons, List.nodup_cons]
      exact h
    · simp only [aset, if_neg hk, List.map_cons, List.nodup_cons]
      refine ⟨fun hmem => ?_, ih h.2⟩
      rcases aset_keys_mem k k' v t hmem with rfl | hmem'
      · exact hk rfl
      · exact h.1 hmem'

theorem aerase_keys_sublist {α : Type} (k : String) :
    ∀ l : List (String × α),
      ((aerase k l).map Prod.fst).Sublist (l.map Prod.fst) := by
  intro l
  induction l with
  | nil => simp [aerase]
  | cons q t ih =>
    obtain ⟨k', v'⟩ := q
    by_cases hk : k' = k
    · subst hk
      simp only [aerase, eq_self_iff_true, if_true, List.map_cons]
      exact List.sublist_cons_self _ _
    · simp only [aerase, if_neg hk, List.map_cons]
      exact ih.cons₂ _

theorem aerase_nodup {α : Type} (k : String) (l : List (String × α))
    (h : (l.map Prod.fst).Nodup) : ((aerase k l).map Prod.fst).Nodup :=
  (aerase_keys_sublist k l).nodup h

/-! ## The per-(subscriber, URL) uniqueness invariant -/

/-- At most one record per key at both store levels: the chat keys are
distinct and each subscriber's URL keys are distinct.  This is exactly
"at most one monitored-product record per (subscriber, URL) pair". -/
def StoreWF (s : Store) : Prop :=
  (s.map Prod.fst).Nodup ∧ ∀ ce ∈ s, ((ce.2.map Prod.fst).Nodup)

instance : DecidablePred StoreWF := fun s =>
  decidable_of_iff ((s.map Prod.fst).Nodup ∧ ∀ ce ∈ s, ((ce.2.map Prod.fst).Nodup))
    Iff.rfl

theorem storeWF_aset (s : Store) (chat : String) (v : ChatProducts)
    (hs : StoreWF s) (hv : (v.map Prod.fst).Nodup) : StoreWF (aset chat v s) := by
  refine ⟨aset_nodup chat v s hs.1, ?_⟩
  intro ce hce
  rcases aset_mem chat v ce s hce with rfl | hce'
  · exact hv
  · exact hs.2 ce hce'

/-! ## Lemmas about one sweep step -/

theorem checkOne_cases (d : ProductData) (fr : Option ℚ) (sendOk : Bool)
    (now : String) :
    checkOne d fr sendOk now = .ok [] [] d ∨
    checkOne d fr sendOk now = .err d ∨
    ∃ cur, fr = some cur ∧
      checkOne d fr sendOk now =
        .ok [mkAlert d cur] (if sendOk then [mkAlert d cur] else [])
          ⟨d.name, cur, now⟩ := by
  cases fr with
  | none => exact Or.inl rfl
  | some cur =>
    by_cases h1 : cur = d.last_price
    · exact Or.inl (by simp only [checkOne]; rw [if_pos h1])
    · by_cases h2 : d.last_price = 0
      · exact Or.inr (Or.inl (by simp only [checkOne]; rw [if_neg h1, if_pos h2]))
      · exact Or.inr (Or.inr ⟨cur, rfl,
          by simp only [checkOne]; rw [if_neg h1, if_neg h2]⟩)

theorem sweepChat_keys (f : String → Option ℚ) (now : String)
    (l : ChatProducts) :
    ((sweepChat f now l).2.1).map Prod.fst = l.map Prod.fst := by
  induction l with
  | nil => rfl
  | cons p rest ih =>
    obtain ⟨url, d⟩ := p
    rcases checkOne_cases d (f url) true now with h | h | ⟨cur, hc, h⟩ <;>
      simp [sweepChat, h, ih]

theorem sweepChat_mem (f : String → Option ℚ) (now : String)
    (l : ChatProducts) :
    ∀ p ∈ (sweepChat f now l).2.1, ∃ d0, (p.1, d0) ∈ l ∧
      (p.2 = d0 ∨ ∃ cur, f p.1 = some cur ∧ p.2 = ⟨d0.name, cur, now⟩) := by
  induction l with
  | nil => intro p hp; simp [sweepChat] at hp
  | cons q rest ih =>
    obtain ⟨url, d⟩ := q
    intro p hp
    rcases checkOne_cases d (f url) true now with h | h | ⟨cur, hc, h⟩
    · simp only [sweepChat, h] at hp
      rcases List.mem_cons.1 hp with rfl | hp'
      · exact ⟨d, List.mem_cons_self _ _, Or.inl rfl⟩
      · obtain ⟨d0, hmem, hcase⟩ := ih p hp'
        exact ⟨d0, List.mem_cons_of_mem _ hmem, hcase⟩
    · simp only [sweepChat, h] at hp
      rcases List.mem_cons.1 hp with rfl | hp'
      · exact ⟨d, List.mem_cons_self _ _, Or.inl rfl⟩
      · exact ⟨p.2, List.mem_cons_of_mem _ (by rw [Prod.mk.eta]; exact hp'),
          Or.inl rfl⟩
    · simp only [sweepChat, h] at hp
      rcases List.mem_cons.1 hp with rfl | hp'
      · exact ⟨d, List.mem_cons_self _ _, Or.inr ⟨cur, hc, rfl⟩⟩
      · obtain ⟨d0, hmem, hcase⟩ := ih p hp'
        exact ⟨d0, List.mem_cons_of_mem _ hmem, hcase⟩

theorem sweepStore_keys (f : String → Option ℚ) (now : String) (s : Store) :
    (sweepStore f now s).map Prod.fst = s.map Prod.fst := by
  induction s with
  | nil => rfl
  | cons ce rest ih =>
    obtain ⟨c, l⟩ := ce
    by_cases hab : (sweepChat f now l).2.2 = true
    · simp [sweepStore, hab]
    · simp [sweepStore, hab, ih]

theorem sweepStore_mem (f : String → Option ℚ) (now : String) (s : Store) :
    ∀ ce ∈ sweepStore f now s, ∃ l0, (ce.1, l0) ∈ s ∧
      (ce.2 = l0 ∨ ce.2 = (sweepChat f now l0).2.1) := by
  induction s with
  | nil => intro ce h; simp [sweepStore] at h
  | cons q rest ih =>
    obtain ⟨c, l⟩ := q
    intro ce hce
    by_cases hab : (sweepChat f now l).2.2 = true
    · simp only [sweepStore, if_pos hab] at hce
      rcases List.mem_cons.1 hce with rfl | hce'
      · exact ⟨l, List.mem_cons_self _ _, Or.inr rfl⟩
      · exact ⟨ce.2, List.mem_cons_of_mem _ (by rw [Prod.mk.eta]; exact hce'),
          Or.inl rfl⟩
    · simp only [sweepStore, if_neg hab] at hce
      rcases List.mem_cons.1 hce with rfl | hce'
      · exact ⟨l, List.mem_cons_self _ _, Or.inr rfl⟩
      · obtain ⟨l0, hm, hc⟩ := ih ce hce'
        exact ⟨l0, List.mem_cons_of_mem _ hm, hc⟩

/-! ## Preservation of the uniqueness invariant -/

theorem chatValue_nodup (s : Store) (hs : StoreWF s) (chat : String)
    (cp : ChatProducts) (h : alookup chat s = some cp) :
    (cp.map Prod.fst).Nodup := by
  simpa using hs.2 (chat, cp) (alookup_mem_of_eq chat cp s h)

theorem addChatIfAbsent_wf (s : Store) (chat : String) (hs : StoreWF s) :
    StoreWF (addChatIfAbsent s chat) := by
  unfold addChatIfAbsent
  split
  · exact hs
  · exact storeWF_aset s chat [] hs (by simp)

theorem chatDict_nodup (s : Store) (chat : String) (hs : StoreWF s) :
    ((chatDict s chat).map Prod.fst).Nodup := by
  unfold chatDict
  cases hl : alookup chat (addChatIfAbsent s chat) with
  | none => simp
  | some cp =>
    simpa using chatValue_nodup _ (addChatIfAbsent_wf s chat hs) chat cp hl

theorem add_product_wf (s : Store) (chat : String) (args : List String)
    (fetch : String → Option (ℚ × String)) (now : String) (hs : StoreWF s) :
    StoreWF (add_product s chat args fetch now).products := by
  cases args with
  | nil => simpa [add_product] using hs
  | cons url rest =>
    by_cases hurl : strStartsWith url ("https://www.bol.com") = true
    · have h1 : StoreWF (addChatIfAbsent s chat) := addChatIfAbsent_wf s chat hs
      by_cases hdup : (alookup url (chatDict s chat)).isSome = true
      · simpa [add_product, hurl, hdup] using h1
      · cases hf : fetch url with
        | none => simpa [add_product, hurl, hdup, hf] using h1
        | some pn =>
          obtain ⟨price, name⟩ := pn
          by_cases hname : name = ""
          · simpa [add_product, hurl, hdup, hf, hname] using h1
          · have h2 : StoreWF
                (aset chat (aset url ⟨name, price, now⟩ (chatDict s chat))
                  (addChatIfAbsent s chat)) :=
              storeWF_aset _ chat _ h1
                (aset_nodup url _ _ (chatDict_nodup s chat hs))
            simpa [add_product, hurl, hdup, hf, hname] using h2
    · simpa [add_product, hurl] using hs

theorem button_callback_wf (s : Store) (ru : List (String × String))
    (chat data : String) (hs : StoreWF s) :
    StoreWF (button_callback s ru chat data).products := by
  by_cases hd : strStartsWith data ("rm_") = true
  · cases hu : alookup data ru with
    | none => simpa [button_callback, hd, hu] using hs
    | some url =>
      cases hc : alookup chat s with
      | none => simpa [button_callback, hd, hu, hc] using hs
      | some cp =>
        cases hp : alookup url cp with
        | none => simpa [button_callback, hd, hu, hc, hp] using hs
        | some pd =>
          have h2 : StoreWF (aset chat (aerase url cp) s) :=
            storeWF_aset s chat _ hs
              (aerase_nodup url cp (chatValue_nodup s hs chat cp hc))
          simpa [button_callback, hd, hu, hc, hp] using h2
  · simpa [button_callback, hd] using hs

theorem sweepStore_wf (f : String → Option ℚ) (now : String) (s : Store)
    (hs : StoreWF s) : StoreWF (sweepStore f now s) := by
  constructor
  · rw [sweepStore_keys]
    exact hs.1
  · intro ce hce
    obtain ⟨l0, hm, hcase⟩ := sweepStore_mem f now s ce hce
    rcases hcase with h | h
    · rw [h]
      simpa using hs.2 (ce.1, l0) hm
    · rw [h, sweepChat_keys]
      simpa using hs.2 (ce.1, l0) hm

/-! ## Non-negative stored prices, over all reachable states -/

/-- Every stored `last_price` in the store is non-negative. -/
def StoreNonneg (s : Store) : Prop :=
  ∀ ce ∈ s, ∀ ud ∈ ce.2, 0 ≤ (Prod.snd ud).last_price

instance : DecidablePred StoreNonneg := fun s =>
  decidable_of_iff (∀ ce ∈ s, ∀ ud ∈ ce.2, 0 ≤ (Prod.snd ud).last_price) Iff.rfl

/-- `self.get_price`, as `add_product` sees it at line 189: every value it
can return is a value of the modelled extractor on some fetch outcome. -/
def PairOracle (fetch : String → Option (ℚ × String)) : Prop :=
  ∀ url r, fetch url = some r → ∃ fr, get_price fr = some r

/-- `self.get_price`, as `check_prices` sees it at line 278 (only the
price component is used there). -/
def PriceOracle (fetch : String → Option ℚ) : Prop :=
  ∀ url p, fetch url = some p → ∃ fr n, get_price fr = some (p, n)

theorem nonneg_aset (s : Store) (chat : String) (v : ChatProducts)
    (hs : StoreNonneg s) (hv : ∀ ud ∈ v, 0 ≤ (Prod.snd ud).last_price) :
    StoreNonneg (aset chat v s) := by
  intro ce hce
  rcases aset_mem chat v ce s hce with rfl | hce'
  · exact hv
  · exact hs ce hce'

theorem chatValue_nonneg (s : Store) (hs : StoreNonneg s) (chat : String)
    (cp : ChatProducts) (h : alookup chat s = some cp) :
    ∀ ud ∈ cp, 0 ≤ (Prod.snd ud).last_price := by
  simpa using hs (chat, cp) (alookup_mem_of_eq chat cp s h)

theorem addChatIfAbsent_nonneg (s : Store) (chat : String)
    (hs : StoreNonneg s) : StoreNonneg (addChatIfAbsent s chat) := by
  unfold addChatIfAbsent
  split
  · exact hs
  · exact nonneg_aset s chat [] hs (by simp)

theorem chatDict_nonneg (s : Store) (chat : String) (hs : StoreNonneg s) :
    ∀ ud ∈ chatDict s chat, 0 ≤ (Prod.snd ud).last_price := by
  unfold chatDict
  cases hl : alookup chat (addChatIfAbsent s chat) with
  | none => simp
  | some cp =>
    simpa using chatValue_nonneg _ (addChatIfAbsent_nonneg s chat hs) chat cp hl

theorem add_product_nonneg (s : Store) (chat : String) (args : List String)
    (fetch : String → Option (ℚ × String)) (now : String)
    (hs : StoreNonneg s) (ho : PairOracle fetch) :
    StoreNonneg (add_product s chat args fetch now).products := by
  cases args with
  | nil => simpa [add_product] using hs
  | cons url rest =>
    by_cases hurl : strStartsWith url ("https://www.bol.com") = true
    · have h1 : StoreNonneg (addChatIfAbsent s chat) :=
        addChatIfAbsent_nonneg s chat hs
      by_cases hdup : (alookup url (chatDict s chat)).isSome = true
      · simpa [add_product, hurl, hdup] using h1
      · cases hf : fetch url with
        | none => simpa [add_product, hurl, hdup, hf] using h1
        | some pn =>
          obtain ⟨price, name⟩ := pn
          by_cases hname : name = ""
          · simpa [add_product, hurl, hdup, hf, hname] using h1
          · have hp : 0 ≤ price := by
              obtain ⟨fr, hfr⟩ := ho url (price, name) hf
              exact get_price_nonneg fr price name hfr
            have h2 : StoreNonneg
                (aset chat (aset url ⟨name, price, now⟩ (chatDict s chat))
                  (addChatIfAbsent s chat)) := by
              refine nonneg_aset _ chat _ h1 ?_
              intro ud hud
              rcases aset_mem url ⟨name, price, now⟩ ud _ hud with rfl | hud'
              · exact hp
              · exact chatDict_nonneg s chat hs ud hud'
            simpa [add_product, hurl, hdup, hf, hname] using h2
    · simpa [add_product, hurl] using hs

theorem button_callback_nonneg (s : Store) (ru : List (String × String))
    (chat data : String) (hs : StoreNonneg s) :
    StoreNonneg (button_callback s ru chat data).products := by
  by_cases hd : strStartsWith data ("rm_") = true
  · cases hu : alookup data ru with
    | none => simpa [button_callback, hd, hu] using hs
    | some url =>
      cases hc : alookup chat s with
      | none => simpa [button_callback, hd, hu, hc] using hs
      | some cp =>
        cases hp : alookup url cp with
        | none => simpa [button_callback, hd, hu, hc, hp] using hs
        | some pd =>
          have h2 : StoreNonneg (aset chat (aerase url cp) s) := by
            refine nonneg_aset s chat _ hs ?_
            intro ud hud
            exact chatValue_nonneg s hs chat cp hc ud (aerase_subset url ud cp hud)
          simpa [button_callback, hd, hu, hc, hp] using h2
  · simpa [button_callback, hd] using hs

theorem sweepChat_nonneg (f : String → Option ℚ) (now : String)
    (l : ChatProducts) (hl : ∀ ud ∈ l, 0 ≤ (Prod.snd ud).last_price)
    (ho : PriceOracle f) :
    ∀ ud ∈ (sweepChat f now l).2.1, 0 ≤ (Prod.snd ud).last_price := by
  intro ud hud
  obtain ⟨d0, hmem, hcase⟩ := sweepChat_mem f now l ud hud
  rcases hcase with h | ⟨cur, hcur, h⟩
  · rw [h]
    simpa using hl (ud.1, d0) hmem
  · rw [h]
    obtain ⟨fr, n, hfr⟩ := ho ud.1 cur hcur
    exact get_price_nonneg fr cur n hfr

theorem sweepStore_nonneg (f : String → Option ℚ) (now : String) (s : Store)
    (hs : StoreNonneg s) (ho : PriceOracle f) :
    StoreNonneg (sweepStore f now s) := by
  intro ce hce
  obtain ⟨l0, hm, hcase⟩ := sweepStore_mem f now s ce hce
  have hl0 : ∀ ud ∈ l0, 0 ≤ (Prod.snd ud).last_price := by
    simpa using hs (ce.1, l0) hm
  rcases hcase with h | h
  · rw [h]
    exact hl0
  · rw [h]
    exact sweepChat_nonneg f now l0 hl0 ho

/-! ## Reachable store states

The program starts with an empty store (`load_products` returns `{}` when
the data file is absent or unreadable; a pre-existing file was itself
written by `save_products` from an in-memory state reached the same way).
Mutations are exactly `/add`, the removal button callback, and the
polling sweep, with every price obtained through `get_price`. -/

inductive Reachable : Store → Prop where
  | init : Reachable []
  | add {s : Store} (chat : String) (args : List String)
      (fetch : String → Option (ℚ × String)) (now : String) :
      PairOracle fetch → Reachable s →
      Reachable (add_product s chat args fetch now).products
  | callback {s : Store} (ru : List (String × String)) (chat data : String) :
      Reachable s → Reachable (button_callback s ru chat data).products
  | sweep {s : Store} (fetch : String → Option ℚ) (now : String) :
      PriceOracle fetch → Reachable s → Reachable (sweepStore fetch now s)

theorem reachable_wf (s : Store) (h : Reachable s) : StoreWF s := by
  induction h with
  | init => exact ⟨List.nodup_nil, by simp⟩
  | add chat args fetch now _ _ ih => exact add_product_wf _ chat args fetch now ih
  | callback ru chat data _ ih => exact button_callback_wf _ ru chat data ih
  | sweep fetch now _ _ ih => exact sweepStore_wf fetch now _ ih

theorem reachable_nonneg (s : Store) (h : Reachable s) : StoreNonneg s := by
  induction h with
  | init => intro ce hce; cases hce
  | add chat args fetch now ho _ ih =>
    exact add_product_nonneg _ chat args fetch now ih ho
  | callback ru chat data _ ih => exact button_callback_nonneg _ ru chat data ih
  | sweep fetch now ho _ ih => exact sweepStore_nonneg fetch now _ ih ho

/-! ## Concrete parse evaluations -/

theorem parse_3899 : parsePrice ("38.99") = some ((3899 : ℚ) / 100) := by
  have h : parsePrice ("38.99")
      = some ((natOfDigits ['3', '8'] : ℚ)
          + (natOfDigits ['9', '9'] : ℚ) / (10 : ℚ) ^ 2) := rfl
  rw [h, show natOfDigits ['3', '8'] = 38 from by decide,
    show natOfDigits ['9', '9'] = 99 from by decide]
  norm_num

theorem parse_123456 : parsePrice ("1234.56") = some ((123456 : ℚ) / 100) := by
  have h : parsePrice ("1234.56")
      = some ((natOfDigits ['1', '2', '3', '4'] : ℚ)
          + (natOfDigits ['5', '6'] : ℚ) / (10 : ℚ) ^ 2) := rfl
  rw [h, show natOfDigits ['1', '2', '3', '4'] = 1234 from by decide,
    show natOfDigits ['5', '6'] = 56 from by decide]
  norm_num

/-! ## Sign of the percentage change (check_prices, line 285) -/

theorem changePercent_pos_iff (o c : ℚ) (ho : 0 < o) :
    0 < (c - o) / o * 100 ↔ o < c := by
  rw [div_mul_eq_mul_div, lt_div_iff₀ ho, zero_mul]
  constructor <;> intro h <;> nlinarith

theorem changePercent_neg_iff (o c : ℚ) (ho : 0 < o) :
    (c - o) / o * 100 < 0 ↔ c < o := by
  rw [div_mul_eq_mul_div, div_lt_iff₀ ho, zero_mul]
  constructor <;> intro h <;> nlinarith

/-! # The claims -/

/-- **C1**: the normalization step first strips every character except
digits, commas, and periods, then replaces every comma with a period, and
when more than one period remains it concatenates all parts before the
last period, keeping only the last period as the decimal point; `"38,99"`
parses to the same value as `"38.99"` (namely 38.99), and `"1.234,56"`
normalizes to `"1234.56"` and parses to 1234.56. -/
theorem c1_normalization :
    (∀ s : String, cleanChars s = (s.toList.filter keepChar).map commaToDot) ∧
    (∀ s : String, ¬ (cleanChars s).count '.' > 1 →
      (normalizePrice s).toList = cleanChars s) ∧
    (∀ (s : String) (a b : List Char), cleanChars s = a ++ '.' :: b →
      '.' ∉ b → '.' ∈ a →
      (normalizePrice s).toList = a.filter (fun c => c != '.') ++ '.' :: b) ∧
    normalizePrice ("38,99") = "38.99" ∧
    parsePrice (normalizePrice ("38,99")) = parsePrice (normalizePrice ("38.99")) ∧
    parsePrice (normalizePrice ("38,99")) = some ((3899 : ℚ) / 100) ∧
    normalizePrice ("1.234,56") = "1234.56" ∧
    parsePrice (normalizePrice ("1.234,56")) = some ((123456 : ℚ) / 100) := by
  refine ⟨fun s => rfl, ?_, ?_, by decide, ?_, ?_, by decide, ?_⟩
  · intro s h
    rw [normalizePrice_toList]
    unfold collapseDots
    rw [if_neg h]
  · intro s a b hab hb ha
    have hcount : (a ++ '.' :: b).count '.' > 1 := by
      rw [List.count_append, List.count_cons_self]
      have h1 : 0 < List.count '.' a := List.count_pos_iff.2 ha
      omega
    rw [normalizePrice_toList, hab]
    unfold collapseDots
    rw [if_pos hcount, splitDots_append a b hb]
    show (splitDots a ++ [b]).dropLast.flatten
        ++ '.' :: (splitDots a ++ [b]).getLastD []
      = List.filter (fun c => c != '.') a ++ '.' :: b
    rw [List.dropLast_concat, flatten_splitDots, List.getLastD_eq_getLast?,
      List.getLast?_concat]
    rfl
  · rw [show normalizePrice ("38,99") = "38.99" from by decide,
      show normalizePrice ("38.99") = "38.99" from by decide]
  · rw [show normalizePrice ("38,99") = "38.99" from by decide]
    exact parse_3899
  · rw [show normalizePrice ("1.234,56") = "1234.56" from by decide]
    exact parse_123456

/-- Witness for C1: the two conditional conjuncts applied at `"38,99"`
(one period left after comma replacement: kept as-is) and at `"1.234,56"`
(two periods left: all parts before the last are concatenated). -/
theorem c1_witness :
    (normalizePrice ("38,99")).toList = cleanChars ("38,99") ∧
    (normalizePrice ("1.234,56")).toList
      = ['1', '.', '2', '3', '4'].filter (fun c => c != '.') ++ '.' :: ['5', '6'] :=
  ⟨c1_normalization.2.1 ("38,99") (by decide),
   c1_normalization.2.2.1 ("1.234,56") ['1', '.', '2', '3', '4'] ['5', '6']
     (by decide) (by decide) (by decide)⟩

/-- **C3**: the post-parse heuristic maps `x` to `x / 100` when
`x > 1000` and leaves every `x ≤ 1000` (including 1000 itself)
unchanged. -/
theorem c3_high_price_correction (x : ℚ) :
    (x ≤ 1000 → highPriceCorrection x = x) ∧
    (1000 < x → highPriceCorrection x = x / 100) := by
  unfold highPriceCorrection
  exact ⟨fun h => if_neg (not_lt.2 h), fun h => if_pos h⟩

/-- Witness for C3: the boundary value 1000 passes through unchanged, and
2000 is divided by 100. -/
theorem c3_witness :
    highPriceCorrection 1000 = 1000 ∧ highPriceCorrection 2000 = 2000 / 100 :=
  ⟨(c3_high_price_correction 1000).1 (by norm_num),
   (c3_high_price_correction 2000).2 (by norm_num)⟩

/-- **C4**: every failure mode of the extraction body — network error,
non-2xx status, no name selector matching, no price element with a digit,
unparsable price text — is caught at the boundary and collapses to the
single failure value `none`; no two failure modes are distinguishable by
the caller, and nothing escapes (`get_price` is a total function into
`Option`). -/
theorem c4_failure_boundary (f : FetchResult) :
    (∀ e, extractCore f = .error e → get_price f = none) ∧
    (∀ (f' : FetchResult) e e', extractCore f = .error e →
      extractCore f' = .error e' → get_price f = get_price f') ∧
    (∀ doc, f = .ok doc → findNameElement doc name_selectors = none →
      get_price f = none) ∧
    (∀ doc nameEl, f = .ok doc → findNameElement doc name_selectors = some nameEl →
      findPriceElement doc price_selectors = none → get_price f = none) ∧
    (∀ doc nameEl priceEl, f = .ok doc →
      findNameElement doc name_selectors = some nameEl →
      findPriceElement doc price_selectors = some priceEl →
      extractPrice priceEl.text.trim = none → get_price f = none) ∧
    (f = .netError → get_price f = none) ∧
    (∀ c, f = .badStatus c → get_price f = none) := by
  have hfail : ∀ e, extractCore f = .error e → get_price f = none := by
    intro e h
    unfold get_price
    rw [h]
  refine ⟨hfail, ?_, ?_, ?_, ?_, ?_, ?_⟩
  · intro f' e e' h h'
    unfold get_price
    rw [h, h']
  · intro doc hf hn
    subst hf
    exact hfail .nameNotFound (by simp [extractCore, hn])
  · intro doc nameEl hf hn hp
    subst hf
    exact hfail .priceNotFound (by simp [extractCore, hn, hp])
  · intro doc nameEl priceEl hf hn hp hx
    subst hf
    exact hfail .badPriceText (by simp [extractCore, hn, hp, hx])
  · intro hf
    subst hf
    exact hfail .network rfl
  · intro c hf
    subst hf
    exact hfail (.httpStatus c) rfl

/-- Witness for C4: a network error, a 500 status and an empty document
(no name element) all yield the same failure value. -/
theorem c4_witness :
    get_price FetchResult.netError = none ∧
    get_price FetchResult.netError = get_price (FetchResult.badStatus 500) ∧
    get_price (FetchResult.ok []) = none :=
  ⟨(c4_failure_boundary FetchResult.netError).1 ExtractError.network rfl,
   (c4_failure_boundary FetchResult.netError).2.1 (FetchResult.badStatus 500)
     ExtractError.network (ExtractError.httpStatus 500) rfl rfl,
   (c4_failure_boundary (FetchResult.ok [])).2.2.1 [] rfl rfl⟩

/-- **C2, counterexample**: the claim fails when the stored last price is
zero.  `zeroRecord` stores price 0; the fetched price 5 differs, yet the
iteration raises `ZeroDivisionError` at line 285 (`change / last_price`),
so no notification is sent and the record is not updated — not the
claimed "exactly one notification and price updated". -/
theorem c2_counterexample :
    ¬ ((5 : ℚ) = zeroRecord.last_price) ∧
    checkOne zeroRecord (some 5) true ("t1") = StepOutcome.err zeroRecord := by
  constructor
  · norm_num [zeroRecord]
  · rfl

/-- **C2, amended**: for a record whose stored last price is positive
(stored prices are non-negative, so this excludes only the zero case, at
which the percentage computation raises and aborts the iteration): a
differing fetched price produces exactly one notification whose
percentage change carries the sign of the price change, and the record's
price and timestamp are updated; an equal fetched price produces zero
notifications and leaves the record untouched. -/
theorem c2_amended (d : ProductData) (current : ℚ) (sendOk : Bool)
    (now : String) (hpos : 0 < d.last_price) :
    (current = d.last_price →
      checkOne d (some current) sendOk now = StepOutcome.ok [] [] d) ∧
    (current ≠ d.last_price →
      checkOne d (some current) sendOk now
        = StepOutcome.ok [mkAlert d current]
            (if sendOk then [mkAlert d current] else []) ⟨d.name, current, now⟩ ∧
      (0 < (mkAlert d current).changePercent ↔ d.last_price < current) ∧
      ((mkAlert d current).changePercent < 0 ↔ current < d.last_price)) := by
  constructor
  · intro h
    simp only [checkOne]
    rw [if_pos h]
  · intro h
    have hcp : (mkAlert d current).changePercent
        = (current - d.last_price) / d.last_price * 100 := rfl
    refine ⟨?_, ?_, ?_⟩
    · simp only [checkOne]
      rw [if_neg h, if_neg (ne_of_gt hpos)]
    · rw [hcp]
      exact changePercent_pos_iff d.last_price current hpos
    · rw [hcp]
      exact changePercent_neg_iff d.last_price current hpos

/-- Witness for C2 (amended): a record stored at 10, fetched at 12, with
the transport succeeding: one alert with positive percentage change and
an updated record; fetching 10 again changes nothing. -/
theorem c2_witness :
    checkOne prodOne (some 12) true ("t1")
      = StepOutcome.ok [mkAlert prodOne 12]
          (if true then [mkAlert prodOne 12] else []) ⟨prodOne.name, 12, "t1"⟩ ∧
    (0 < (mkAlert prodOne 12).changePercent ↔ prodOne.last_price < 12) ∧
    checkOne prodOne (some prodOne.last_price) true ("t1")
      = StepOutcome.ok [] [] prodOne := by
  have h := c2_amended prodOne 12 true ("t1") (by norm_num [prodOne])
  have h2 := h.2 (by norm_num [prodOne])
  have h0 := c2_amended prodOne prodOne.last_price true ("t1") (by norm_num [prodOne])
  exact ⟨h2.1, h2.2.1, h0.1 rfl⟩

/-- **C5, counterexample**: the removal tokens are deterministically
`rm_0`, `rm_1`, …, so a token issued by an earlier menu can coincide with
a token of the most recent menu.  Subscriber `chat1` monitors two
products; the first `/remove` issues `rm_0 → urlOne`, `rm_1 → urlTwo`;
the subscriber removes `urlOne` via `rm_0`; a second `/remove` issues
`rm_0 → urlTwo`.  Pressing the stale first-menu `rm_0` then resolves
against the new menu's mapping and removes `urlTwo` — not the claimed
invalid-request error, and not a no-op. -/
theorem c5_counterexample :
    ("rm_0", urlOne) ∈ menuOne ∧
    menuTwo = [("rm_0", urlTwo)] ∧
    staleCallback.messages = [removedMsg ("Product Two")] ∧
    staleCallback.messages ≠ [invalidRemovalMsg] ∧
    staleCallback.products ≠ afterFirstRemoval := by
  exact ⟨by decide, by decide, by decide, by decide, by decide⟩

/-- **C5, amended**: pressing a `rm_`-token that is not among the tokens
of the most recent menu yields exactly the invalid-request message and
changes nothing (never a crash — `button_callback` is total — and never a
silent no-op); a stale token that coincides with a current token is
instead resolved against the most recent menu's mapping. -/
theorem c5_amended (products : Store) (ru : List (String × String))
    (chat data : String) (hrm : strStartsWith data ("rm_") = true) :
    (alookup data ru = none →
      button_callback products ru chat data
        = ⟨[invalidRemovalMsg], products, ru⟩) ∧
    (∀ url cp pd, alookup data ru = some url →
      alookup chat products = some cp → alookup url cp = some pd →
      button_callback products ru chat data
        = ⟨[removedMsg pd.name], aset chat (aerase url cp) products, ru⟩) := by
  constructor
  · intro h
    simp [button_callback, hrm, h]
  · intro url cp pd h hc hp
    simp [button_callback, hrm, h, hc, hp]

/-- Witness for C5 (amended): with the current menu holding only `rm_0`,
the stale token `rm_7` yields the invalid-request message and leaves
everything unchanged, while `rm_0` resolves against the current menu. -/
theorem c5_witness :
    button_callback storeTwo [("rm_0", urlOne)] ("chat1") ("rm_7")
      = ⟨[invalidRemovalMsg], storeTwo, [("rm_0", urlOne)]⟩ ∧
    button_callback storeTwo [("rm_0", urlOne)] ("chat1") ("rm_0")
      = ⟨[removedMsg prodOne.name],
         aset ("chat1") (aerase urlOne [(urlOne, prodOne), (urlTwo, prodTwo)])
           storeTwo,
         [("rm_0", urlOne)]⟩ :=
  ⟨(c5_amended storeTwo [("rm_0", urlOne)] ("chat1") ("rm_7") (by decide)).1 rfl,
   (c5_amended storeTwo [("rm_0", urlOne)] ("chat1") ("rm_0") (by decide)).2
     urlOne [(urlOne, prodOne), (urlTwo, prodTwo)] prodOne rfl rfl rfl⟩

/-- **C6**: within one sweep over a subscriber's records, an extractor
failure (`get_price` returning `None`) for one URL leaves that record
untouched, produces no alert, and every subsequent record is still
checked exactly as it would have been: the failing entry neither aborts
nor perturbs the remainder of the sweep.  (`h1` says the records before
the failing one do not raise; an escaped exception — not an extractor
failure — is the only thing that aborts a sweep.) -/
theorem c6_failure_skips (fetch : String → Option ℚ) (now : String)
    (l1 l2 : ChatProducts) (u : String) (d : ProductData)
    (hu : fetch u = none) (h1 : (sweepChat fetch now l1).2.2 = false) :
    sweepChat fetch now (l1 ++ (u, d) :: l2)
      = ((sweepChat fetch now l1).1 ++ (sweepChat fetch now l2).1,
         (sweepChat fetch now l1).2.1 ++ (u, d) :: (sweepChat fetch now l2).2.1,
         (sweepChat fetch now l2).2.2) := by
  induction l1 with
  | nil =>
    have hc : checkOne d (fetch u) true now = .ok [] [] d := by
      rw [hu]
      rfl
    simp [sweepChat, hc]
  | cons q rest ih =>
    obtain ⟨url0, d0⟩ := q
    rcases checkOne_cases d0 (fetch url0) true now with h | h | ⟨cur, hcur, h⟩
    · have h1' : (sweepChat fetch now rest).2.2 = false := by
        simp [sweepChat, h] at h1
        exact h1
      simp [sweepChat, h, ih h1']
    · simp [sweepChat, h] at h1
    · have h1' : (sweepChat fetch now rest).2.2 = false := by
        simp [sweepChat, h] at h1
        exact h1
      simp [sweepChat, h, ih h1']

/-- Witness for C6: a three-record sweep where the extractor fails on the
middle URL; the third record is still processed. -/
theorem c6_witness :
    sweepChat (fun _ => none) ("t1")
        ([(("u1" : String), prodOne)] ++ (("u2" : String), prodTwo)
          :: [(("u3" : String), zeroRecord)])
      = ((sweepChat (fun _ => none) ("t1") [(("u1" : String), prodOne)]).1
           ++ (sweepChat (fun _ => none) ("t1") [(("u3" : String), zeroRecord)]).1,
         (sweepChat (fun _ => none) ("t1") [(("u1" : String), prodOne)]).2.1
           ++ (("u2" : String), prodTwo)
             :: (sweepChat (fun _ => none) ("t1") [(("u3" : String), zeroRecord)]).2.1,
         (sweepChat (fun _ => none) ("t1") [(("u3" : String), zeroRecord)]).2.2) :=
  c6_failure_skips (fun _ => none) ("t1") [(("u1" : String), prodOne)]
    [(("u3" : String), zeroRecord)] ("u2") prodTwo rfl rfl

/-- **C7**: `/add` with a URL that does not start with
`https://www.bol.com` replies with the invalid-URL message, leaves the
stored products untouched, never invokes the extractor (the `fetched`
flag is `false`), and its outcome does not depend on the extractor at
all. -/
theorem c7_invalid_url (products : Store) (chat url : String)
    (rest : List String) (fetch fetchAlt : String → Option (ℚ × String))
    (now nowAlt : String)
    (h : strStartsWith url ("https://www.bol.com") = false) :
    add_product products chat (url :: rest) fetch now
      = ⟨[invalidUrlMsg], products, false⟩ ∧
    add_product products chat (url :: rest) fetch now
      = add_product products chat (url :: rest) fetchAlt nowAlt := by
  have h1 : ∀ (g : String → Option (ℚ × String)) (t : String),
      add_product products chat (url :: rest) g t
        = ⟨[invalidUrlMsg], products, false⟩ := by
    intro g t
    simp [add_product, h]
  exact ⟨h1 fetch now, by rw [h1 fetch now, h1 fetchAlt nowAlt]⟩

/-- Witness for C7: adding an `http://` URL is rejected with no state
change and no fetch. -/
theorem c7_witness :
    add_product demoStore ("chat1") [("http://example.com/x")]
        (fun _ => none) ("t1")
      = ⟨[invalidUrlMsg], demoStore, false⟩ :=
  (c7_invalid_url demoStore ("chat1") ("http://example.com/x") []
    (fun _ => none) (fun _ => none) ("t1") ("t1") (by decide)).1

/-- **C8**: every reachable store state has at most one record per
(subscriber, URL) pair; the uniqueness invariant is preserved by `/add`,
by the removal callback, and by a polling sweep; and an `/add` for a
(subscriber, URL) pair already present is rejected with the
already-monitored message, leaves the store unchanged, and performs no
fetch. -/
theorem c8_unique_records (s : Store) (hs : StoreWF s) :
    (∀ s', Reachable s' → StoreWF s') ∧
    (∀ chat args fetch now, StoreWF (add_product s chat args fetch now).products) ∧
    (∀ ru chat data, StoreWF (button_callback s ru chat data).products) ∧
    (∀ fetch now, StoreWF (sweepStore fetch now s)) ∧
    (∀ chat url rest cp d fetch now,
      strStartsWith url ("https://www.bol.com") = true →
      alookup chat s = some cp → alookup url cp = some d →
      add_product s chat (url :: rest) fetch now
        = ⟨[alreadyMonitoredMsg], s, false⟩) := by
  refine ⟨reachable_wf,
    fun chat args fetch now => add_product_wf s chat args fetch now hs,
    fun ru chat data => button_callback_wf s ru chat data hs,
    fun fetch now => sweepStore_wf fetch now s hs, ?_⟩
  intro chat url rest cp d fetch now hurl hchat hd
  have hca : addChatIfAbsent s chat = s := by
    unfold addChatIfAbsent
    rw [hchat]
    simp
  have hcd : chatDict s chat = cp := by
    unfold chatDict
    rw [hca, hchat]
    rfl
  simp [add_product, hurl, hcd, hd, hca]

/-- Witness for C8: a concrete well-formed one-record store stays
well-formed through a sweep, and re-adding its URL is rejected
unchanged. -/
theorem c8_witness :
    StoreWF (sweepStore (fun _ => none) ("t1") demoStore) ∧
    add_product demoStore ("chat1") [urlOne] (fun _ => none) ("t1")
      = ⟨[alreadyMonitoredMsg], demoStore, false⟩ := by
  have h := c8_unique_records demoStore (by decide)
  exact ⟨h.2.2.2.1 (fun _ => none) ("t1"),
    h.2.2.2.2 ("chat1") urlOne [] [(urlOne, prodOne)] prodOne
      (fun _ => none) ("t1") (by decide) rfl rfl⟩

/-- **C9**: normalization always yields a string of digits with at most
one period; a successfully parsed price is non-negative and stays
non-negative through the divide-by-100 correction (hence every value
`get_price` can return is non-negative); and every reachable store state
— built by `/add`, removal and sweeps from the empty initial store, with
all prices coming from the extractor — holds only non-negative stored
prices. -/
theorem c9_nonneg_prices :
    (∀ s : String, (∀ c ∈ (normalizePrice s).toList, c.isDigit ∨ c = '.') ∧
      (normalizePrice s).toList.count '.' ≤ 1) ∧
    (∀ raw p, extractPrice raw = some p → 0 ≤ p) ∧
    (∀ f p n, get_price f = some (p, n) → 0 ≤ p) ∧
    (∀ s, Reachable s → StoreNonneg s) :=
  ⟨fun s => ⟨normalizePrice_chars s, normalizePrice_count s⟩,
   extractPrice_nonneg, get_price_nonneg, reachable_nonneg⟩

/-- Witness for C9: the extracted value of the raw text `"38,99"` is
non-negative, and the initial store satisfies the price invariant. -/
theorem c9_witness : 0 ≤ ((3899 : ℚ) / 100) ∧ StoreNonneg [] := by
  have h1 : extractPrice ("38,99") = some ((3899 : ℚ) / 100) := by
    have h0 : extractPrice ("38,99")
        = (parsePrice ("38.99")).map highPriceCorrection := by
      unfold extractPrice
      rw [show normalizePrice ("38,99") = "38.99" from by decide]
    rw [h0, parse_3899]
    have h2 : highPriceCorrection ((3899 : ℚ) / 100) = (3899 : ℚ) / 100 := by
      unfold highPriceCorrection
      rw [if_neg (by norm_num)]
    simp [h2]
  exact ⟨c9_nonneg_prices.2.1 ("38,99") ((3899 : ℚ) / 100) h1,
    c9_nonneg_prices.2.2.2 [] Reachable.init⟩

/-- **C10**: when a change is detected and a notification is attempted
(possible exactly when the stored price is nonzero), the resulting stored
record — price and timestamp updated — is the same whether the send
succeeds or fails: the send error of line 297 is caught at line 299 and
the update at lines 302-304 runs regardless; with a failed send nothing
is delivered, and a later check fetching the same price sends nothing, so
that notification is permanently missed. -/
theorem c10_update_despite_send_failure (d : ProductData) (current : ℚ)
    (now now2 : String) (hne : current ≠ d.last_price) (h0 : d.last_price ≠ 0) :
    checkOne d (some current) false now
      = StepOutcome.ok [mkAlert d current] [] ⟨d.name, current, now⟩ ∧
    (∀ s1 s2 : Bool, stepRecord (checkOne d (some current) s1 now)
        = stepRecord (checkOne d (some current) s2 now)) ∧
    checkOne ⟨d.name, current, now⟩ (some current) true now2
      = StepOutcome.ok [] [] ⟨d.name, current, now⟩ := by
  have hstep : ∀ b : Bool, checkOne d (some current) b now
      = StepOutcome.ok [mkAlert d current]
          (if b then [mkAlert d current] else []) ⟨d.name, current, now⟩ := by
    intro b
    simp only [checkOne]
    rw [if_neg hne, if_neg h0]
  refine ⟨?_, ?_, ?_⟩
  · rw [hstep false]
    rfl
  · intro s1 s2
    rw [hstep s1, hstep s2]
    rfl
  · simp only [checkOne]
    simp

/-- Witness for C10: a record stored at 20, fetched at 15 with the send
failing: the alert is attempted but undelivered, the record is updated
anyway, and the next check at 15 sends nothing. -/
theorem c10_witness :
    checkOne prodTwo (some 15) false ("t1")
      = StepOutcome.ok [mkAlert prodTwo 15] [] ⟨prodTwo.name, 15, "t1"⟩ ∧
    checkOne ⟨prodTwo.name, 15, "t1"⟩ (some 15) true ("t2")
      = StepOutcome.ok [] [] ⟨prodTwo.name, 15, "t1"⟩ := by
  have h := c10_update_despite_send_failure prodTwo 15 ("t1") ("t2")
    (by norm_num [prodTwo]) (by norm_num [prodTwo])
  exact ⟨h.1, h.2.2⟩

end PriceMonitor
